import Mathlib

/-!
Verification development for the transcriber service (src/app.py).

The subject of the claims is the in-memory task registry, the background
transcription worker `process_transcription`, the cancel endpoint
`stop_task`, and the SSE progress stream `stream_progress` /
`event_generator`.  The embedding below translates those parts of the
source into Lean definitions:

* a task record mirrors the dict stored in `tasks` (status, progress,
  transcript, created_at, and the optionally present result and error keys);
* each assignment the worker or an endpoint performs on a task record is
  one atomic operation on `Task`; the blocks of consecutive assignments at
  the end of the worker (the completion writes, resp. the error writes)
  are taken as one operation each;
* the worker run `process_transcription` is parameterised by a schedule
  telling before which atomic worker action a stop request for the job is
  processed, which models the interleaving of the endpoint with the
  worker thread;
* the SSE generator is parameterised by the sequence of registry states it
  observes: one read for the serialized snapshot and, faithfully to the
  source, a second later read of the live status for the termination test.

Numbers (progress, durations, timestamps, sizes) are rationals; the
engine output is a list of segments followed optionally by a raised
engine error, and fallible endpoints return `Except` with the HTTP code.
-/

namespace Transcriber

/-- The five values the `status` field of a task takes in src/app.py:
"queued", "processing", "completed", "error", "cancelled". -/
inductive Status where
  | queued
  | processing
  | completed
  | error
  | cancelled
deriving DecidableEq, Repr

/-- The terminal statuses, exactly the list `["completed", "error",
"cancelled"]` tested at line 456 of src/app.py. -/
def Status.isTerminal : Status → Bool
  | .completed => true
  | .error => true
  | .cancelled => true
  | _ => false

/-- The `result` payload assembled at lines 364-369 of src/app.py. -/
structure TaskResult where
  transcript : String
  language : String
  device : String
  size_mb : ℚ
deriving DecidableEq, Repr

/-- One entry of the global `tasks` dict.  The dict literal at lines
413-418 has keys status, progress, transcript, created_at; the keys
result and error appear later, hence are `Option` fields here. -/
structure Task where
  status : Status
  progress : ℚ
  transcript : String
  created_at : ℚ
  result : Option TaskResult
  error : Option String
deriving DecidableEq, Repr

/-- The fresh task record created by the upload endpoint
(lines 413-418 of src/app.py). -/
def initTask (createdAt : ℚ) : Task :=
  { status := .queued
    progress := 0
    transcript := ""
    created_at := createdAt
    result := none
    error := none }

/-- The mutation performed by the stop endpoint (lines 432-433 of
src/app.py): set status to cancelled only if it is queued or processing. -/
def cancelTask (t : Task) : Task :=
  if t.status = .queued ∨ t.status = .processing then
    { t with status := .cancelled }
  else t

/-- One segment of engine output, as consumed by the worker loop:
faster-whisper yields objects with start, end and text. -/
structure Segment where
  start : ℚ
  end_ : ℚ
  text : String
deriving DecidableEq, Repr

/-- The data the worker gets from the engine besides the segment stream:
`info.duration`, `info.language` (line 344-345), the device chosen by
`get_model` and the file size used for the result (lines 364-369). -/
structure WorkerEnv where
  duration : ℚ
  language : String
  device : String
  size_mb : ℚ
deriving DecidableEq, Repr

/-- Line 339 of src/app.py: `tasks[task_id]["status"] = "processing"`.
The assignment is unconditional. -/
def markProcessing (t : Task) : Task :=
  { t with status := .processing }

/-- The progress update of one loop iteration (lines 356-358 of
src/app.py): only when `total_duration > 0`, set progress to
`min(99, (segment.end / total_duration) * 100)`. -/
def tickProgress (env : WorkerEnv) (seg : Segment) (t : Task) : Task :=
  if 0 < env.duration then
    { t with progress := min 99 (seg.end_ / env.duration * 100) }
  else t

/-- The completion writes (lines 362-369 of src/app.py): status
completed, progress 100, and the result dict whose transcript is
`"".join(transcript_parts).strip()`. -/
def finishTask (env : WorkerEnv) (parts : List String) (t : Task) : Task :=
  { t with
    status := .completed
    progress := 100
    result := some
      { transcript := (String.join parts).trim
        language := env.language
        device := env.device
        size_mb := env.size_mb } }

/-- The except-branch writes (lines 373-374 of src/app.py): status error
and the error message. -/
def failTask (msg : String) (t : Task) : Task :=
  { t with status := .error, error := some msg }

/-- Apply a stop request now if the schedule says one is processed here. -/
def maybeCancel (b : Bool) (t : Task) : Task :=
  if b then cancelTask t else t

/-- Everything one worker execution produces: the final task record,
whether a per-segment cancellation check observed the cancelled status
(the early `return` at line 352), how many times the artifact file was
unlinked (the `finally` at line 377), and the sequence of task states
after each atomic mutation of the record. -/
structure RunResult where
  final : Task
  observedCancel : Bool
  unlinks : ℕ
  trace : List Task
deriving Repr

/-- The worker loop (lines 347-358 of src/app.py) together with the code
after it.  `segs` are the segments the engine still has to yield;
`errAfter` is the engine error raised by the iterator after those
segments, if any (`none` means the stream is exhausted normally);
`sched k` tells whether a stop request is processed immediately before
the worker action number `k`; `parts` is the accumulated
`transcript_parts`.  Each iteration checks the cancellation status
before consuming the segment, exactly as lines 350-352 do. -/
def processLoop (env : WorkerEnv) (sched : ℕ → Bool) :
    List Segment → Option String → ℕ → List String → Task → RunResult
  | [], errAfter, k, parts, t =>
    let t1 := maybeCancel (sched k) t
    let pre := if sched k then [t1] else []
    match errAfter with
    | none =>
      let t2 := finishTask env parts t1
      { final := t2, observedCancel := false, unlinks := 1, trace := pre ++ [t2] }
    | some msg =>
      let t2 := failTask msg t1
      { final := t2, observedCancel := false, unlinks := 1, trace := pre ++ [t2] }
  | seg :: rest, errAfter, k, parts, t =>
    let t1 := maybeCancel (sched k) t
    let pre := if sched k then [t1] else []
    if t1.status = .cancelled then
      { final := t1, observedCancel := true, unlinks := 1, trace := pre }
    else
      let t2 := tickProgress env seg t1
      let r := processLoop env sched rest errAfter (k + 1) (parts ++ [seg.text]) t2
      { r with trace := pre ++ t2 :: r.trace }

/-- One whole execution of `process_transcription` (lines 336-377 of
src/app.py) on a task record, under a given interleaving of stop
requests.  Action number 0 is the unconditional `status = "processing"`
assignment; the artifact unlink of the `finally` block is counted on
every path by `processLoop`. -/
def process_transcription (env : WorkerEnv) (sched : ℕ → Bool)
    (segs : List Segment) (errAfter : Option String) (t : Task) : RunResult :=
  let t0 := maybeCancel (sched 0) t
  let pre := if sched 0 then [t0] else []
  let t1 := markProcessing t0
  let r := processLoop env sched segs errAfter 1 [] t1
  { r with trace := pre ++ t1 :: r.trace }

/-- The in-memory registry: the global `tasks` dict of src/app.py. -/
def Registry := String → Option Task

/-- The empty registry at process start. -/
def emptyReg : Registry := fun _ => none

/-- Mutate the entry of one id, if present. -/
def updateReg (reg : Registry) (id : String) (f : Task → Task) : Registry :=
  fun x => if x = id then (reg x).map f else reg x

/-- The operations that ever touch the `tasks` dict: the upload endpoint
inserts a fresh record (lines 413-418), the stop endpoint mutates one
entry (lines 432-433), and the worker mutates one entry; nothing ever
removes an entry. -/
inductive SysOp where
  | upload (id : String) (createdAt : ℚ)
  | stop (id : String)
  | work (id : String) (f : Task → Task)

/-- Apply one registry operation. -/
def applySysOp : SysOp → Registry → Registry
  | .upload id c, reg => fun x => if x = id then some (initTask c) else reg x
  | .stop id, reg => updateReg reg id cancelTask
  | .work id f, reg => updateReg reg id f

/-- The registry after a history of operations, starting empty. -/
def applyOps (l : List SysOp) : Registry :=
  l.foldl (fun reg o => applySysOp o reg) emptyReg

/-- Whether the history ever created the id, i.e. contains an upload
returning this task id. -/
def createdIn (l : List SysOp) (id : String) : Bool :=
  l.any fun o =>
    match o with
    | .upload i _ => i = id
    | _ => false

/-- The stop endpoint (lines 426-435 of src/app.py): 404 when the id is
not a key of `tasks`, otherwise apply `cancelTask` to the entry and
answer with the fixed message. -/
def stop_task (reg : Registry) (id : String) : Except ℕ (Registry × String) :=
  match reg id with
  | none => .error 404
  | some _ => .ok (updateReg reg id cancelTask, "Task cancelled")

/-- The membership test of the progress endpoint (lines 438-441 of
src/app.py): 404 when the id is not a key of `tasks`, otherwise the
streaming response is started. -/
def stream_progress (reg : Registry) (id : String) : Except ℕ Unit :=
  match reg id with
  | none => .error 404
  | some _ => .ok ()

/-- One element of the SSE stream: the JSON object serialized at lines
448-453 of src/app.py, with the four keys status, progress, error,
result. -/
structure Snapshot where
  status : Status
  progress : ℚ
  error : Option String
  result : Option TaskResult
deriving DecidableEq, Repr

/-- The record serialized from a task state. -/
def snapshotOf (t : Task) : Snapshot :=
  { status := t.status
    progress := t.progress
    error := t.error
    result := t.result }

/-- The generator body of the progress stream (lines 443-459 of
src/app.py).  Iteration `i` first reads the registry entry (`polls i`,
the `tasks.get(task_id)` at line 445; `none` ends the stream), serializes
and yields its snapshot, and then - faithfully to line 456, which
re-reads `task["status"]` from the live dict object after the yield -
tests the status read at that later moment (`checks i`) against the
terminal list.  The fuel argument bounds how many iterations are
unrolled; the real loop has no own bound. -/
def event_generator (polls : ℕ → Option Task) (checks : ℕ → Status) :
    ℕ → List Snapshot
  | 0 => []
  | n + 1 =>
    match polls 0 with
    | none => []
    | some task =>
      snapshotOf task ::
        (if (checks 0).isTerminal then []
         else event_generator (fun i => polls (i + 1)) (fun i => checks (i + 1)) n)

/-! ### Basic facts about the atomic operations -/

@[simp]
theorem cancelTask_progress (t : Task) : (cancelTask t).progress = t.progress := by
  unfold cancelTask; split <;> rfl

@[simp]
theorem cancelTask_result (t : Task) : (cancelTask t).result = t.result := by
  unfold cancelTask; split <;> rfl

@[simp]
theorem cancelTask_error (t : Task) : (cancelTask t).error = t.error := by
  unfold cancelTask; split <;> rfl

theorem cancelTask_status (t : Task) :
    (cancelTask t).status = t.status ∨ (cancelTask t).status = .cancelled := by
  unfold cancelTask; split
  · exact Or.inr rfl
  · exact Or.inl rfl

@[simp]
theorem maybeCancel_progress (b : Bool) (t : Task) :
    (maybeCancel b t).progress = t.progress := by
  unfold maybeCancel; split <;> simp

@[simp]
theorem maybeCancel_result (b : Bool) (t : Task) :
    (maybeCancel b t).result = t.result := by
  unfold maybeCancel; split <;> simp

@[simp]
theorem maybeCancel_error (b : Bool) (t : Task) :
    (maybeCancel b t).error = t.error := by
  unfold maybeCancel; split <;> simp

theorem maybeCancel_status (b : Bool) (t : Task) :
    (maybeCancel b t).status = t.status ∨ (maybeCancel b t).status = .cancelled := by
  unfold maybeCancel; split
  · exact cancelTask_status t
  · exact Or.inl rfl

@[simp]
theorem tickProgress_status (env : WorkerEnv) (seg : Segment) (t : Task) :
    (tickProgress env seg t).status = t.status := by
  unfold tickProgress; split <;> rfl

@[simp]
theorem tickProgress_result (env : WorkerEnv) (seg : Segment) (t : Task) :
    (tickProgress env seg t).result = t.result := by
  unfold tickProgress; split <;> rfl

@[simp]
theorem tickProgress_error (env : WorkerEnv) (seg : Segment) (t : Task) :
    (tickProgress env seg t).error = t.error := by
  unfold tickProgress; split <;> rfl

theorem tickProgress_progress (env : WorkerEnv) (seg : Segment) (t : Task) :
    (tickProgress env seg t).progress =
      if 0 < env.duration then min 99 (seg.end_ / env.duration * 100) else t.progress := by
  unfold tickProgress; split <;> simp_all

@[simp]
theorem markProcessing_progress (t : Task) : (markProcessing t).progress = t.progress := rfl

@[simp]
theorem markProcessing_status (t : Task) : (markProcessing t).status = .processing := rfl

@[simp]
theorem markProcessing_result (t : Task) : (markProcessing t).result = t.result := rfl

@[simp]
theorem markProcessing_error (t : Task) : (markProcessing t).error = t.error := rfl

@[simp]
theorem finishTask_progress (env : WorkerEnv) (parts : List String) (t : Task) :
    (finishTask env parts t).progress = 100 := rfl

@[simp]
theorem finishTask_status (env : WorkerEnv) (parts : List String) (t : Task) :
    (finishTask env parts t).status = .completed := rfl

@[simp]
theorem finishTask_error (env : WorkerEnv) (parts : List String) (t : Task) :
    (finishTask env parts t).error = t.error := rfl

@[simp]
theorem failTask_progress (msg : String) (t : Task) : (failTask msg t).progress = t.progress := rfl

@[simp]
theorem failTask_status (msg : String) (t : Task) : (failTask msg t).status = .error := rfl

@[simp]
theorem failTask_result (msg : String) (t : Task) : (failTask msg t).result = t.result := rfl

@[simp]
theorem failTask_error (msg : String) (t : Task) : (failTask msg t).error = some msg := rfl

@[simp]
theorem initTask_progress (c : ℚ) : (initTask c).progress = 0 := rfl

@[simp]
theorem initTask_status (c : ℚ) : (initTask c).status = .queued := rfl

@[simp]
theorem initTask_result (c : ℚ) : (initTask c).result = none := rfl

@[simp]
theorem initTask_error (c : ℚ) : (initTask c).error = none := rfl

/-- A task whose status can only become cancelled by a stop request keeps a
status different from completed and from error. -/
theorem maybeCancel_plain (b : Bool) (t : Task)
    (hc : t.status ≠ .completed) (hf : t.status ≠ .error) :
    (maybeCancel b t).status ≠ .completed ∧ (maybeCancel b t).status ≠ .error := by
  rcases maybeCancel_status b t with h | h <;> rw [h]
  · exact ⟨hc, hf⟩
  · exact ⟨by simp, by simp⟩

/-- The relation between the optional result and error payloads and the
status that amended claim C5 asserts of every reachable record. -/
def ResultErrOk (s : Task) : Prop :=
  (s.result.isSome ↔ s.status = .completed) ∧ (s.error.isSome ↔ s.status = .error)

theorem resultErrOk_plain (s : Task) (hr : s.result = none) (he : s.error = none)
    (hc : s.status ≠ .completed) (hf : s.status ≠ .error) : ResultErrOk s := by
  constructor
  · exact iff_of_false (by simp [hr]) hc
  · exact iff_of_false (by simp [he]) hf

theorem progress_ne_100 (s : Task) (hp : s.progress ≤ 99) : s.progress ≠ 100 := by
  intro h
  rw [h] at hp
  norm_num at hp

/-! ### Invariant lemmas about one worker execution -/

theorem processLoop_unlinks (env : WorkerEnv) (sched : ℕ → Bool) :
    ∀ (segs : List Segment) (errAfter : Option String) (k : ℕ)
      (parts : List String) (t : Task),
      (processLoop env sched segs errAfter k parts t).unlinks = 1 := by
  intro segs
  induction segs with
  | nil =>
    intro errAfter k parts t
    cases errAfter <;> simp [processLoop]
  | cons seg rest ih =>
    intro errAfter k parts t
    simp only [processLoop]
    split
    · rfl
    · simpa using ih errAfter (k + 1) (parts ++ [seg.text]) _

theorem processLoop_complete (env : WorkerEnv) (sched : ℕ → Bool) :
    ∀ (segs : List Segment) (k : ℕ) (parts : List String) (t : Task),
      (processLoop env sched segs none k parts t).observedCancel = false →
      (processLoop env sched segs none k parts t).final.status = .completed
      ∧ (processLoop env sched segs none k parts t).final.progress = 100
      ∧ (processLoop env sched segs none k parts t).final.result =
          some { transcript := (String.join (parts ++ segs.map Segment.text)).trim
                 language := env.language
                 device := env.device
                 size_mb := env.size_mb } := by
  intro segs
  induction segs with
  | nil =>
    intro k parts t _
    refine ⟨rfl, rfl, ?_⟩
    simp [processLoop, finishTask]
  | cons seg rest ih =>
    intro k parts t h
    revert h
    simp only [processLoop]
    split
    · intro h; exact absurd h (by simp)
    · intro h
      have := ih (k + 1) (parts ++ [seg.text]) _ (by simpa using h)
      simpa using this

theorem processLoop_fail (env : WorkerEnv) (sched : ℕ → Bool) (msg : String) :
    ∀ (segs : List Segment) (k : ℕ) (parts : List String) (t : Task),
      (processLoop env sched segs (some msg) k parts t).observedCancel = false →
      (processLoop env sched segs (some msg) k parts t).final.status = .error
      ∧ (processLoop env sched segs (some msg) k parts t).final.error = some msg
      ∧ (processLoop env sched segs (some msg) k parts t).final.result = t.result := by
  intro segs
  induction segs with
  | nil =>
    intro k parts t _
    refine ⟨rfl, rfl, ?_⟩
    simp [processLoop, failTask]
  | cons seg rest ih =>
    intro k parts t h
    revert h
    simp only [processLoop]
    split
    · intro h; exact absurd h (by simp)
    · intro h
      have := ih (k + 1) (parts ++ [seg.text]) _ (by simpa using h)
      simpa using this

theorem processLoop_observed (env : WorkerEnv) (sched : ℕ → Bool) :
    ∀ (segs : List Segment) (errAfter : Option String) (k : ℕ)
      (parts : List String) (t : Task),
      (processLoop env sched segs errAfter k parts t).observedCancel = true →
      (processLoop env sched segs errAfter k parts t).final.status = .cancelled
      ∧ (processLoop env sched segs errAfter k parts t).final.result = t.result
      ∧ (processLoop env sched segs errAfter k parts t).final.error = t.error := by
  intro segs
  induction segs with
  | nil =>
    intro errAfter k parts t h
    revert h
    cases errAfter <;> simp [processLoop]
  | cons seg rest ih =>
    intro errAfter k parts t h
    revert h
    simp only [processLoop]
    split
    · intro _
      refine ⟨by assumption, by simp, by simp⟩
    · intro h
      have := ih errAfter (k + 1) (parts ++ [seg.text]) _ (by simpa using h)
      simpa using this

/-- Along the whole loop, the optional result and error payloads agree
with the status in the sense of `ResultErrOk`, provided they do so and the
status is neither completed nor error on entry. -/
theorem processLoop_result_error (env : WorkerEnv) (sched : ℕ → Bool) :
    ∀ (segs : List Segment) (errAfter : Option String) (k : ℕ)
      (parts : List String) (t : Task),
      t.result = none → t.error = none →
      t.status ≠ .completed → t.status ≠ .error →
      ∀ s ∈ (processLoop env sched segs errAfter k parts t).trace, ResultErrOk s := by
  intro segs
  induction segs with
  | nil =>
    intro errAfter k parts t hr he hc hf s hs
    have hmc := maybeCancel_plain (sched k) t hc hf
    cases errAfter with
    | none =>
      simp only [processLoop] at hs
      rcases List.mem_append.1 hs with h | h
      · by_cases hb : sched k = true
        · simp [hb] at h
          subst h
          exact resultErrOk_plain _ (by simp [hr]) (by simp [he]) (hb ▸ hmc.1) (hb ▸ hmc.2)
        · simp [hb] at h
      · simp at h
        subst h
        constructor
        · exact iff_of_true (by simp [finishTask]) (by simp)
        · exact iff_of_false (by simp [he]) (by simp)
    | some msg =>
      simp only [processLoop] at hs
      rcases List.mem_append.1 hs with h | h
      · by_cases hb : sched k = true
        · simp [hb] at h
          subst h
          exact resultErrOk_plain _ (by simp [hr]) (by simp [he]) (hb ▸ hmc.1) (hb ▸ hmc.2)
        · simp [hb] at h
      · simp at h
        subst h
        constructor
        · exact iff_of_false (by simp [hr]) (by simp)
        · exact iff_of_true (by simp) (by simp)
  | cons seg rest ih =>
    intro errAfter k parts t hr he hc hf s hs
    have hmc := maybeCancel_plain (sched k) t hc hf
    revert hs
    simp only [processLoop]
    split
    · intro hs
      by_cases hb : sched k = true
      · simp [hb] at hs
        subst hs
        exact resultErrOk_plain _ (by simp [hr]) (by simp [he]) (hb ▸ hmc.1) (hb ▸ hmc.2)
      · simp [hb] at hs
    · intro hs
      simp only [List.mem_append, List.mem_cons] at hs
      rcases hs with h | h | h
      · by_cases hb : sched k = true
        · simp [hb] at h
          subst h
          exact resultErrOk_plain _ (by simp [hr]) (by simp [he]) (hb ▸ hmc.1) (hb ▸ hmc.2)
        · simp [hb] at h
      · subst h
        exact resultErrOk_plain _ (by simp [hr]) (by simp [he])
          (by simpa using hmc.1) (by simpa using hmc.2)
      · exact ih errAfter (k + 1) (parts ++ [seg.text]) _
          (by simp [hr]) (by simp [he]) (by simpa using hmc.1) (by simpa using hmc.2) s h

theorem maybeCancel_ne_completed (b : Bool) (t : Task) (hc : t.status ≠ .completed) :
    (maybeCancel b t).status ≠ .completed := by
  rcases maybeCancel_status b t with h | h <;> rw [h]
  · exact hc
  · simp

theorem tickProgress_le_99 (env : WorkerEnv) (seg : Segment) (t : Task)
    (hp : t.progress ≤ 99) : (tickProgress env seg t).progress ≤ 99 := by
  rw [tickProgress_progress]
  split
  · exact min_le_left _ _
  · exact hp

theorem le_tickProgress (env : WorkerEnv) (seg : Segment) (t : Task)
    (hnext : 0 < env.duration → t.progress ≤ min 99 (seg.end_ / env.duration * 100)) :
    t.progress ≤ (tickProgress env seg t).progress := by
  rw [tickProgress_progress]
  split
  · next h => exact hnext h
  · exact le_refl _

/-- Along the whole loop the recorded progress never decreases, and it
equals 100 exactly at states whose status is completed, provided the
engine yields its segments with non-decreasing end times and the entry
state is below 100 and not completed. -/
theorem processLoop_progress_ok (env : WorkerEnv) (sched : ℕ → Bool) :
    ∀ (segs : List Segment) (errAfter : Option String) (k : ℕ)
      (parts : List String) (t : Task),
      t.progress ≤ 99 →
      t.status ≠ .completed →
      (0 < env.duration →
        ∀ e ∈ (segs.map Segment.end_).head?, t.progress ≤ min 99 (e / env.duration * 100)) →
      List.Chain' (· ≤ ·) (segs.map Segment.end_) →
      List.Chain' (· ≤ ·)
        ((t :: (processLoop env sched segs errAfter k parts t).trace).map Task.progress)
      ∧ ∀ s ∈ t :: (processLoop env sched segs errAfter k parts t).trace,
          (s.progress = 100 ↔ s.status = .completed) := by
  intro segs
  induction segs with
  | nil =>
    intro errAfter k parts t hp hc _ _
    have hne := progress_ne_100 t hp
    have hmc := maybeCancel_ne_completed (sched k) t hc
    have hp1 : t.progress ≤ 100 := by linarith
    cases errAfter with
    | none =>
      constructor
      · by_cases hb : sched k = true <;>
          simp [processLoop, hb, List.chain'_cons, hp1]
      · intro s hs
        simp only [processLoop] at hs
        by_cases hb : sched k = true <;> simp [hb] at hs
        · rcases hs with h | h | h
          · subst h; exact iff_of_false hne hc
          · subst h; exact iff_of_false (by simpa using hne) (hb ▸ hmc)
          · subst h; exact iff_of_true (by simp) (by simp)
        · rcases hs with h | h
          · subst h; exact iff_of_false hne hc
          · subst h; exact iff_of_true (by simp) (by simp)
    | some msg =>
      constructor
      · by_cases hb : sched k = true <;>
          simp [processLoop, hb, List.chain'_cons, hp1]
      · intro s hs
        simp only [processLoop] at hs
        by_cases hb : sched k = true <;> simp [hb] at hs
        · rcases hs with h | h | h
          · subst h; exact iff_of_false hne hc
          · subst h; exact iff_of_false (by simpa using hne) (hb ▸ hmc)
          · subst h; exact iff_of_false (by simpa using hne) (by simp)
        · rcases hs with h | h
          · subst h; exact iff_of_false hne hc
          · subst h; exact iff_of_false (by simpa using hne) (by simp)
  | cons seg rest ih =>
    intro errAfter k parts t hp hc hnext hchain
    have hne := progress_ne_100 t hp
    have hmc := maybeCancel_ne_completed (sched k) t hc
    revert hnext
    simp only [List.map_cons, Option.mem_def, Option.some.injEq, List.head?_cons]
    intro hnext
    have hstep : ∀ b, 0 < env.duration →
        (maybeCancel b t).progress ≤ min 99 (seg.end_ / env.duration * 100) := by
      intro b hd
      rw [maybeCancel_progress]
      exact hnext hd _ rfl
    rw [List.map_cons, List.chain'_cons'] at hchain
    simp only [processLoop]
    split
    · next hcn =>
      constructor
      · by_cases hb : sched k = true <;>
          simp [hb, List.chain'_cons]
      · intro s hs
        by_cases hb : sched k = true <;> simp [hb] at hs
        · rcases hs with h | h
          · subst h; exact iff_of_false hne hc
          · subst h; exact iff_of_false (by simpa using hne) (hb ▸ hmc)
        · subst hs; exact iff_of_false hne hc
    · next hcn =>
      have hp2 : (tickProgress env seg (maybeCancel (sched k) t)).progress ≤ 99 :=
        tickProgress_le_99 _ _ _ (by simpa using hp)
      have hc2 : (tickProgress env seg (maybeCancel (sched k) t)).status ≠ .completed := by
        rw [tickProgress_status]; exact hmc
      have hnext2 : 0 < env.duration →
          ∀ e ∈ (rest.map Segment.end_).head?,
            (tickProgress env seg (maybeCancel (sched k) t)).progress ≤
              min 99 (e / env.duration * 100) := by
        intro hd e he
        rw [tickProgress_progress, if_pos hd]
        have h12 : seg.end_ ≤ e := hchain.1 e he
        have : seg.end_ / env.duration * 100 ≤ e / env.duration * 100 := by gcongr
        exact min_le_min (le_refl _) this
      have H := ih errAfter (k + 1) (parts ++ [seg.text]) _ hp2 hc2 hnext2 hchain.2
      constructor
      · have hchain2 := H.1
        simp only [List.map_cons] at hchain2 ⊢
        have hle : t.progress ≤ (tickProgress env seg (maybeCancel (sched k) t)).progress := by
          have := le_tickProgress env seg (maybeCancel (sched k) t)
            (fun hd => by simpa using hstep (sched k) hd)
          simpa using this
        by_cases hb : sched k = true
        · rw [if_pos hb]
          simp only [List.cons_append, List.map_cons]
          exact List.Chain'.cons (by simp) (List.Chain'.cons (by simpa using hle) hchain2)
        · rw [if_neg hb]
          simp only [List.nil_append, List.map_cons]
          exact List.Chain'.cons hle hchain2
      · intro s hs
        simp only [List.mem_cons, List.mem_append] at hs
        rcases hs with h | h | h
        · subst h; exact iff_of_false hne hc
        · by_cases hb : sched k = true <;> simp [hb] at h
          subst h; exact iff_of_false (by simpa using hne) (hb ▸ hmc)
        · exact H.2 s (by simpa using h)

/-! ### The registry: ids are never removed, so absence means never created -/

theorem updateReg_isSome (reg : Registry) (i id : String) (f : Task → Task) :
    ((updateReg reg i f) id).isSome = (reg id).isSome := by
  unfold updateReg
  by_cases h : id = i <;> simp [h]

theorem foldl_applySysOp_isSome (id : String) :
    ∀ (l : List SysOp) (reg : Registry),
      ((l.foldl (fun reg o => applySysOp o reg) reg) id).isSome
        = (createdIn l id || (reg id).isSome) := by
  intro l
  induction l with
  | nil => intro reg; simp [createdIn]
  | cons op rest ih =>
    intro reg
    rw [List.foldl_cons, ih]
    cases op with
    | upload i c =>
      by_cases h : i = id
      · simp [createdIn, applySysOp, h, List.any_cons]
      · have h2 : ¬(id = i) := fun hh => h hh.symm
        simp [createdIn, applySysOp, h, h2, List.any_cons]
    | stop i =>
      simp [createdIn, applySysOp, List.any_cons, updateReg_isSome]
    | work i f =>
      simp [createdIn, applySysOp, List.any_cons, updateReg_isSome]

theorem applyOps_isSome (l : List SysOp) (id : String) :
    ((applyOps l) id).isSome = createdIn l id := by
  unfold applyOps
  rw [foldl_applySysOp_isSome]
  simp [emptyReg]

theorem stop_task_notFound_iff (l : List SysOp) (id : String) :
    stop_task (applyOps l) id = .error 404 ↔ createdIn l id = false := by
  have h := applyOps_isSome l id
  unfold stop_task
  cases hreg : (applyOps l) id <;> rw [hreg] at h <;> simp_all

theorem stream_progress_notFound_iff (l : List SysOp) (id : String) :
    stream_progress (applyOps l) id = .error 404 ↔ createdIn l id = false := by
  have h := applyOps_isSome l id
  unfold stream_progress
  cases hreg : (applyOps l) id <;> rw [hreg] at h <;> simp_all

/-! ### The SSE generator -/

theorem event_generator_zero (polls : ℕ → Option Task) (checks : ℕ → Status) :
    event_generator polls checks 0 = [] := rfl

theorem event_generator_succ_none (polls : ℕ → Option Task) (checks : ℕ → Status)
    (n : ℕ) (hp : polls 0 = none) :
    event_generator polls checks (n + 1) = [] := by
  simp [event_generator, hp]

theorem event_generator_succ_some (polls : ℕ → Option Task) (checks : ℕ → Status)
    (n : ℕ) (t : Task) (hp : polls 0 = some t) :
    event_generator polls checks (n + 1) =
      snapshotOf t ::
        (if (checks 0).isTerminal then []
         else event_generator (fun i => polls (i + 1)) (fun i => checks (i + 1)) n) := by
  simp [event_generator, hp]

/-- Every element the generator yields is the serialized snapshot of the
registry state polled at the corresponding iteration. -/
theorem event_generator_mem :
    ∀ (n : ℕ) (polls : ℕ → Option Task) (checks : ℕ → Status) (i : ℕ) (s : Snapshot),
      (event_generator polls checks n).get? i = some s →
      ∃ t, polls i = some t ∧ s = snapshotOf t := by
  intro n
  induction n with
  | zero =>
    intro polls checks i s hs
    simp [event_generator_zero] at hs
  | succ n ih =>
    intro polls checks i s hs
    rcases hp : polls 0 with _ | t
    · rw [event_generator_succ_none polls checks n hp] at hs
      simp at hs
    · rw [event_generator_succ_some polls checks n t hp] at hs
      cases i with
      | zero =>
        rw [List.get?_cons_zero] at hs
        exact ⟨t, hp, (Option.some.inj hs).symm⟩
      | succ i =>
        rw [List.get?_cons_succ] at hs
        cases hT : (checks 0).isTerminal with
        | true => rw [if_pos hT] at hs; simp at hs
        | false =>
          rw [if_neg (by simp [hT])] at hs
          exact ih _ _ i s hs

/-- When the status never changes between the snapshot read and the
post-yield check of one iteration, a yielded snapshot with terminal
status is the last element of the stream. -/
theorem event_generator_terminal_last :
    ∀ (n : ℕ) (polls : ℕ → Option Task) (checks : ℕ → Status),
      (∀ i t, polls i = some t → checks i = t.status) →
      ∀ (i : ℕ) (s : Snapshot),
        (event_generator polls checks n).get? i = some s →
        s.status.isTerminal = true →
        (event_generator polls checks n).length = i + 1 := by
  intro n
  induction n with
  | zero =>
    intro polls checks _ i s hs _
    simp [event_generator_zero] at hs
  | succ n ih =>
    intro polls checks hsync i s hs hterm
    rcases hp : polls 0 with _ | t
    · rw [event_generator_succ_none polls checks n hp] at hs
      simp at hs
    · rw [event_generator_succ_some polls checks n t hp] at hs ⊢
      cases i with
      | zero =>
        rw [List.get?_cons_zero] at hs
        have hst : s = snapshotOf t := (Option.some.inj hs).symm
        subst hst
        have hchk : (checks 0).isTerminal = true := by
          rw [hsync 0 t hp]
          exact hterm
        rw [if_pos hchk]
        rfl
      | succ i =>
        rw [List.get?_cons_succ] at hs
        cases hT : (checks 0).isTerminal with
        | true => rw [if_pos hT] at hs; simp at hs
        | false =>
          rw [if_neg (by simp [hT])] at hs ⊢
          have := ih (fun j => polls (j + 1)) (fun j => checks (j + 1))
            (fun j u hj => hsync (j + 1) u hj) i s hs hterm
          simp [this]

theorem not_terminal_iff (s : Status) :
    s.isTerminal = false ↔ (s = .queued ∨ s = .processing) := by
  cases s <;> simp [Status.isTerminal]

theorem cancelTask_terminal (t : Task) (ht : t.status.isTerminal = true) :
    cancelTask t = t := by
  unfold cancelTask
  rw [if_neg]
  intro h
  rcases h with h | h <;> rw [h] at ht <;> simp [Status.isTerminal] at ht

theorem cancelTask_nonterminal (t : Task) (ht : t.status.isTerminal = false) :
    cancelTask t = { t with status := .cancelled } := by
  unfold cancelTask
  rw [if_pos ((not_terminal_iff t.status).1 ht)]

/-! ### Sample data used by the concrete witnesses and counterexamples -/

/-- A 10 second recording whose engine reports duration 10. -/
def sampleEnv : WorkerEnv := { duration := 10, language := "en", device := "cpu", size_mb := 1 }

def sampleSeg1 : Segment := { start := 0, end_ := 3, text := "a" }

def sampleSeg2 : Segment := { start := 3, end_ := 6, text := "b" }

def sampleSeg3 : Segment := { start := 6, end_ := 10, text := "c" }

/-- A record as it looks after a successful completion. -/
def doneTask : Task :=
  { status := .completed, progress := 100, transcript := "", created_at := 0,
    result := some { transcript := "x", language := "en", device := "cpu", size_mb := 1 },
    error := none }

/-- A registry holding one completed job. -/
def doneReg : Registry := fun x => if x = "j" then some doneTask else none

/-- A record as the stream may poll it while the worker is mid-flight. -/
def procSnapTask : Task :=
  { status := .processing, progress := 50, transcript := "", created_at := 0,
    result := none, error := none }

/-- A record of a job cancelled while still queued, before its worker ran. -/
def queuedCancelledTask : Task :=
  { status := .cancelled, progress := 0, transcript := "", created_at := 0,
    result := none, error := none }

/-! ### Claims -/

/-- Claim C1: the spec says a job that reached a terminal status never has
its status changed by any later operation.  The code violates this: the
worker begins with an unconditional `tasks[task_id]["status"] =
"processing"` (line 339 of src/app.py), so a job whose status was set to
cancelled while it was still queued is moved back to processing and then
runs to completion.  This theorem evaluates the worker on that failing
input: the status history is queued, cancelled, processing, processing,
completed - a terminal status (cancelled) is left again - and the
cancelled job even ends up with a result. -/
theorem C1_start_overwrites_cancelled_status :
    ((initTask 0 :: (process_transcription sampleEnv (fun k => k == 0) [sampleSeg1] none
        (initTask 0)).trace).map Task.status)
      = [.queued, .cancelled, .processing, .processing, .completed]
    ∧ Status.cancelled.isTerminal = true
    ∧ (process_transcription sampleEnv (fun k => k == 0) [sampleSeg1] none
        (initTask 0)).final.result.isSome = true := by
  refine ⟨by decide, rfl, by decide⟩

/-- Claim C2 (amended): `stop_task` answers 404 exactly for ids never
created; on an existing non-terminal job it sets the status to cancelled;
when one of the worker's per-segment checks observes the cancelled
status, the worker stops and exposes neither result nor error; and on an
already terminal job the call succeeds and leaves the record unchanged.
(The original claim also asserted that after any cancellation of a
non-terminal job the worker stops without writing a result; that part is
false, see the counterexample: a cancellation processed while the job is
still queued is overwritten by the worker start.) -/
theorem C2_cancel_semantics :
    (∀ (l : List SysOp) (id : String),
        stop_task (applyOps l) id = .error 404 ↔ createdIn l id = false)
    ∧ (∀ (reg : Registry) (id : String) (t : Task), reg id = some t →
        t.status.isTerminal = false →
        ∃ reg2 : Registry, stop_task reg id = .ok (reg2, "Task cancelled")
          ∧ reg2 id = some { t with status := .cancelled })
    ∧ (∀ (env : WorkerEnv) (sched : ℕ → Bool) (segs : List Segment)
        (errAfter : Option String) (c : ℚ),
        (process_transcription env sched segs errAfter (initTask c)).observedCancel = true →
        (process_transcription env sched segs errAfter (initTask c)).final.status = .cancelled
        ∧ (process_transcription env sched segs errAfter (initTask c)).final.result = none
        ∧ (process_transcription env sched segs errAfter (initTask c)).final.error = none)
    ∧ (∀ (reg : Registry) (id : String) (t : Task), reg id = some t →
        t.status.isTerminal = true →
        ∃ reg2 : Registry, stop_task reg id = .ok (reg2, "Task cancelled")
          ∧ reg2 id = some t) := by
  refine ⟨stop_task_notFound_iff, ?_, ?_, ?_⟩
  · intro reg id t hreg ht
    refine ⟨updateReg reg id cancelTask, ?_, ?_⟩
    · unfold stop_task
      rw [hreg]
    · unfold updateReg
      rw [if_pos rfl, hreg]
      simp [cancelTask_nonterminal t ht]
  · intro env sched segs errAfter c hobs
    have h := processLoop_observed env sched segs errAfter 1 []
      (markProcessing (maybeCancel (sched 0) (initTask c))) hobs
    exact ⟨h.1, by simpa using h.2.1, by simpa using h.2.2⟩
  · intro reg id t hreg ht
    refine ⟨updateReg reg id cancelTask, ?_, ?_⟩
    · unfold stop_task
      rw [hreg]
    · unfold updateReg
      rw [if_pos rfl, hreg]
      simp [cancelTask_terminal t ht]

theorem C2_cancel_semantics_witness :
    stop_task (applyOps [SysOp.upload "j" 0]) "x" = .error 404
    ∧ (∃ reg2 : Registry, stop_task (applyOps [SysOp.upload "j" 0]) "j"
        = .ok (reg2, "Task cancelled")
        ∧ reg2 "j" = some { initTask 0 with status := .cancelled })
    ∧ ((process_transcription sampleEnv (fun k => k == 2) [sampleSeg1, sampleSeg2] none
        (initTask 0)).final.status = .cancelled
      ∧ (process_transcription sampleEnv (fun k => k == 2) [sampleSeg1, sampleSeg2] none
          (initTask 0)).final.result = none
      ∧ (process_transcription sampleEnv (fun k => k == 2) [sampleSeg1, sampleSeg2] none
          (initTask 0)).final.error = none)
    ∧ (∃ reg2 : Registry, stop_task doneReg "j" = .ok (reg2, "Task cancelled")
        ∧ reg2 "j" = some doneTask) := by
  refine ⟨?_, ?_, ?_, ?_⟩
  · exact (C2_cancel_semantics.1 [SysOp.upload "j" 0] "x").2 (by decide)
  · exact C2_cancel_semantics.2.1 _ "j" (initTask 0) (by decide) (by decide)
  · exact C2_cancel_semantics.2.2.1 sampleEnv (fun k => k == 2) [sampleSeg1, sampleSeg2]
      none 0 (by decide)
  · exact C2_cancel_semantics.2.2.2 doneReg "j" doneTask (by decide) (by decide)

/-- Counterexample to claim C2 as stated: a stop request processed while
the job is still queued does mark it cancelled (first trace entry), yet
the worker afterwards completes the job and writes a result, instead of
stopping without one. -/
theorem C2_queued_cancel_lost :
    (process_transcription sampleEnv (fun k => k == 0) [sampleSeg2] none
        (initTask 0)).trace.head? = some { initTask 0 with status := .cancelled }
    ∧ (process_transcription sampleEnv (fun k => k == 0) [sampleSeg2] none
        (initTask 0)).final.status = .completed
    ∧ (process_transcription sampleEnv (fun k => k == 0) [sampleSeg2] none
        (initTask 0)).final.result.isSome = true := by
  refine ⟨by decide, by decide, by decide⟩

/-- Claim C3: one loop iteration sets progress to
`min(99, 100 * segment.end / totalDuration)` when the engine-reported
duration is positive, and otherwise leaves it at its previous value
(hence never regressing). -/
theorem C3_progress_formula (env : WorkerEnv) (seg : Segment) (t : Task) :
    (0 < env.duration →
      (tickProgress env seg t).progress = min 99 (seg.end_ / env.duration * 100))
    ∧ (¬ 0 < env.duration →
      (tickProgress env seg t).progress = t.progress
      ∧ t.progress ≤ (tickProgress env seg t).progress) := by
  constructor
  · intro h
    rw [tickProgress_progress, if_pos h]
  · intro h
    rw [tickProgress_progress, if_neg h]
    exact ⟨rfl, le_refl _⟩

theorem C3_progress_formula_witness :
    (tickProgress sampleEnv sampleSeg1 (initTask 0)).progress
      = min 99 (sampleSeg1.end_ / sampleEnv.duration * 100)
    ∧ (tickProgress { sampleEnv with duration := 0 } sampleSeg1 (initTask 0)).progress = 0 := by
  constructor
  · exact (C3_progress_formula sampleEnv sampleSeg1 (initTask 0)).1 (by norm_num [sampleEnv])
  · exact ((C3_progress_formula { sampleEnv with duration := 0 } sampleSeg1
      (initTask 0)).2 (by norm_num)).1

/-- Claim C4: across the whole sequence of updates of one execution the
recorded progress is monotonically non-decreasing, and it equals exactly
100 if and only if the status is completed.  The engine is assumed to
report non-negative, chronologically ordered segment end times, as media
timestamps are. -/
theorem C4_progress_monotone_iff_completed
    (env : WorkerEnv) (sched : ℕ → Bool) (segs : List Segment)
    (errAfter : Option String) (c : ℚ)
    (hpos : ∀ e ∈ segs.map Segment.end_, 0 ≤ e)
    (hmono : List.Chain' (· ≤ ·) (segs.map Segment.end_)) :
    List.Chain' (· ≤ ·)
      ((initTask c :: (process_transcription env sched segs errAfter (initTask c)).trace).map
        Task.progress)
    ∧ ∀ s ∈ initTask c :: (process_transcription env sched segs errAfter (initTask c)).trace,
        (s.progress = 100 ↔ s.status = .completed) := by
  have hnext : 0 < env.duration →
      ∀ e ∈ (segs.map Segment.end_).head?,
        (markProcessing (maybeCancel (sched 0) (initTask c))).progress
          ≤ min 99 (e / env.duration * 100) := by
    intro hd e he
    have he2 : e ∈ segs.map Segment.end_ := List.mem_of_mem_head? he
    have h0 : (0:ℚ) ≤ e / env.duration * 100 :=
      mul_nonneg (div_nonneg (hpos e he2) hd.le) (by norm_num)
    simp only [markProcessing_progress, maybeCancel_progress, initTask_progress]
    exact le_min (by norm_num) h0
  have H := processLoop_progress_ok env sched segs errAfter 1 []
    (markProcessing (maybeCancel (sched 0) (initTask c)))
    (by simp only [markProcessing_progress, maybeCancel_progress, initTask_progress]; norm_num)
    (by simp only [markProcessing_status]; decide) hnext hmono
  constructor
  · have hchain := H.1
    rw [List.map_cons] at hchain
    simp only [process_transcription]
    by_cases hb : sched 0 = true
    · rw [if_pos hb]
      simp only [List.cons_append, List.map_cons]
      exact List.Chain'.cons (by simp) (List.Chain'.cons (by simp) hchain)
    · rw [if_neg hb]
      simp only [List.nil_append, List.map_cons]
      exact List.Chain'.cons (by simp) hchain
  · intro s hs
    simp only [process_transcription, List.mem_cons, List.mem_append] at hs
    rcases hs with h | h | h
    · subst h
      exact iff_of_false (by simp only [initTask_progress]; norm_num)
        (by simp only [initTask_status]; decide)
    · by_cases hb : sched 0 = true
      · rw [if_pos hb] at h
        simp only [List.mem_singleton] at h
        subst h
        refine iff_of_false (by simp only [maybeCancel_progress, initTask_progress]; norm_num)
          (maybeCancel_ne_completed _ _ (by simp only [initTask_status]; decide))
      · rw [if_neg hb] at h
        simp at h
    · exact H.2 s (List.mem_cons.2 h)

theorem C4_progress_monotone_iff_completed_witness :
    List.Chain' (· ≤ ·)
      ((initTask 0 :: (process_transcription sampleEnv (fun _ => false)
        [sampleSeg1, sampleSeg2, sampleSeg3] none (initTask 0)).trace).map Task.progress)
    ∧ ∀ s ∈ initTask 0 :: (process_transcription sampleEnv (fun _ => false)
        [sampleSeg1, sampleSeg2, sampleSeg3] none (initTask 0)).trace,
        (s.progress = 100 ↔ s.status = .completed) :=
  C4_progress_monotone_iff_completed sampleEnv (fun _ => false)
    [sampleSeg1, sampleSeg2, sampleSeg3] none 0
    (by norm_num [sampleSeg1, sampleSeg2, sampleSeg3])
    (by norm_num [sampleSeg1, sampleSeg2, sampleSeg3, List.chain'_cons])

/-- Claim C5 (amended): at every state a job record passes through, the
result payload is present exactly when the status is completed and the
error payload exactly when it is error; consequently a cancelled record
carries neither, and both are absent while the record is non-terminal.
(The original claim said exactly one of the two is set in every terminal
status; the counterexample shows a cancelled job has neither.) -/
theorem C5_result_error_fields
    (env : WorkerEnv) (sched : ℕ → Bool) (segs : List Segment)
    (errAfter : Option String) (c : ℚ) :
    ∀ s ∈ initTask c :: (process_transcription env sched segs errAfter (initTask c)).trace,
      (s.result.isSome ↔ s.status = .completed)
      ∧ (s.error.isSome ↔ s.status = .error)
      ∧ (s.status.isTerminal = false → s.result = none ∧ s.error = none) := by
  have key : ∀ s ∈ initTask c ::
      (process_transcription env sched segs errAfter (initTask c)).trace, ResultErrOk s := by
    intro s hs
    simp only [process_transcription, List.mem_cons, List.mem_append] at hs
    rcases hs with h | h | h | h
    · subst h
      exact resultErrOk_plain _ rfl rfl (by simp only [initTask_status]; decide)
        (by simp only [initTask_status]; decide)
    · by_cases hb : sched 0 = true
      · rw [if_pos hb] at h
        simp only [List.mem_singleton] at h
        subst h
        have hmc := maybeCancel_plain (sched 0) (initTask c)
          (by simp only [initTask_status]; decide) (by simp only [initTask_status]; decide)
        exact resultErrOk_plain _ (by simp) (by simp) hmc.1 hmc.2
      · rw [if_neg hb] at h
        simp at h
    · subst h
      exact resultErrOk_plain _ (by simp) (by simp)
        (by simp only [markProcessing_status]; decide)
        (by simp only [markProcessing_status]; decide)
    · exact processLoop_result_error env sched segs errAfter 1 []
        (markProcessing (maybeCancel (sched 0) (initTask c)))
        (by simp) (by simp) (by simp only [markProcessing_status]; decide)
        (by simp only [markProcessing_status]; decide) s h
  intro s hs
  have h := key s hs
  refine ⟨h.1, h.2, ?_⟩
  intro ht
  have h1 : s.status ≠ .completed := by
    intro e; rw [e] at ht; exact absurd ht (by decide)
  have h2 : s.status ≠ .error := by
    intro e; rw [e] at ht; exact absurd ht (by decide)
  constructor
  · cases hr : s.result with
    | none => rfl
    | some v => exact absurd (h.1.1 (by simp [hr])) h1
  · cases he : s.error with
    | none => rfl
    | some v => exact absurd (h.2.1 (by simp [he])) h2

theorem C5_result_error_fields_witness :
    ((initTask 0).result.isSome ↔ (initTask 0).status = .completed)
    ∧ ((initTask 0).error.isSome ↔ (initTask 0).status = .error)
    ∧ ((initTask 0).status.isTerminal = false →
        (initTask 0).result = none ∧ (initTask 0).error = none) :=
  C5_result_error_fields sampleEnv (fun k => k == 2) [sampleSeg1, sampleSeg2] none 0
    (initTask 0) (List.mem_cons_self _ _)

/-- Counterexample to claim C5 as stated: a job cancelled mid-run ends in
a terminal status with neither result nor error set, so it is false that
exactly one of the two is set once a job is terminal. -/
theorem C5_cancelled_has_neither :
    (process_transcription sampleEnv (fun k => k == 2) [sampleSeg1, sampleSeg2] none
        (initTask 0)).final.status.isTerminal = true
    ∧ (process_transcription sampleEnv (fun k => k == 2) [sampleSeg1, sampleSeg2] none
        (initTask 0)).final.result = none
    ∧ (process_transcription sampleEnv (fun k => k == 2) [sampleSeg1, sampleSeg2] none
        (initTask 0)).final.error = none := by
  refine ⟨by decide, by decide, by decide⟩

/-- Claim C6: when the engine output is exhausted normally and no
per-segment check observed a cancellation, the worker trims the
concatenation of all segment texts in order into the result transcript,
forces progress to 100, fills in the result payload and completes. -/
theorem C6_normal_completion
    (env : WorkerEnv) (sched : ℕ → Bool) (segs : List Segment) (c : ℚ)
    (hobs : (process_transcription env sched segs none (initTask c)).observedCancel = false) :
    (process_transcription env sched segs none (initTask c)).final.status = .completed
    ∧ (process_transcription env sched segs none (initTask c)).final.progress = 100
    ∧ (process_transcription env sched segs none (initTask c)).final.result =
        some { transcript := (String.join (segs.map Segment.text)).trim
               language := env.language
               device := env.device
               size_mb := env.size_mb } := by
  have h := processLoop_complete env sched segs 1 []
    (markProcessing (maybeCancel (sched 0) (initTask c))) hobs
  exact ⟨h.1, h.2.1, by simpa using h.2.2⟩

theorem C6_normal_completion_witness :
    (process_transcription sampleEnv (fun _ => false) [sampleSeg1, sampleSeg2, sampleSeg3] none
        (initTask 0)).final.status = .completed
    ∧ (process_transcription sampleEnv (fun _ => false) [sampleSeg1, sampleSeg2, sampleSeg3] none
        (initTask 0)).final.progress = 100
    ∧ (process_transcription sampleEnv (fun _ => false) [sampleSeg1, sampleSeg2, sampleSeg3] none
        (initTask 0)).final.result =
        some { transcript := (String.join ([sampleSeg1, sampleSeg2, sampleSeg3].map
                Segment.text)).trim
               language := sampleEnv.language
               device := sampleEnv.device
               size_mb := sampleEnv.size_mb } :=
  C6_normal_completion sampleEnv (fun _ => false) [sampleSeg1, sampleSeg2, sampleSeg3] 0
    (by decide)

/-- Claim C7: an engine error raised during iteration is caught at the
worker boundary (the run is a total function into a final state), the
job fails with the error description recorded, and no result is exposed;
stated for every run in which no check observed a cancellation first. -/
theorem C7_engine_error_failure
    (env : WorkerEnv) (sched : ℕ → Bool) (segs : List Segment) (msg : String) (c : ℚ)
    (hobs : (process_transcription env sched segs (some msg)
      (initTask c)).observedCancel = false) :
    (process_transcription env sched segs (some msg) (initTask c)).final.status = .error
    ∧ (process_transcription env sched segs (some msg) (initTask c)).final.error = some msg
    ∧ (process_transcription env sched segs (some msg) (initTask c)).final.result = none := by
  have h := processLoop_fail env sched msg segs 1 []
    (markProcessing (maybeCancel (sched 0) (initTask c))) hobs
  exact ⟨h.1, h.2.1, by simpa using h.2.2⟩

theorem C7_engine_error_failure_witness :
    (process_transcription sampleEnv (fun _ => false) [sampleSeg1] (some "boom")
        (initTask 0)).final.status = .error
    ∧ (process_transcription sampleEnv (fun _ => false) [sampleSeg1] (some "boom")
        (initTask 0)).final.error = some "boom"
    ∧ (process_transcription sampleEnv (fun _ => false) [sampleSeg1] (some "boom")
        (initTask 0)).final.result = none :=
  C7_engine_error_failure sampleEnv (fun _ => false) [sampleSeg1] "boom" 0 (by decide)

/-- Claim C8: on every terminating path of the worker - normal
completion, engine error, observed cancellation - the artifact file is
unlinked exactly once, by the `finally` block, whatever the schedule of
stop requests and the engine output. -/
theorem C8_unlink_once (env : WorkerEnv) (sched : ℕ → Bool) (segs : List Segment)
    (errAfter : Option String) (t : Task) :
    (process_transcription env sched segs errAfter t).unlinks = 1 :=
  processLoop_unlinks env sched segs errAfter 1 [] (markProcessing (maybeCancel (sched 0) t))

/-- Claim C9 (amended): `stream_progress` answers 404 exactly for ids
never created; every element the stream yields is the self-contained
snapshot (status, progress, error, result) of a polled registry state;
and provided the recorded status does not change between the snapshot
read and the post-yield check of the same iteration, a yielded snapshot
with terminal status is the last element of the stream.  (The original
claim holds only under that proviso: because line 456 of src/app.py
re-reads the live status after the yield, the stream can also end right
after a non-terminal snapshot, dropping the terminal one - see the
counterexample.) -/
theorem C9_stream_semantics :
    (∀ (l : List SysOp) (id : String),
        stream_progress (applyOps l) id = .error 404 ↔ createdIn l id = false)
    ∧ (∀ (n : ℕ) (polls : ℕ → Option Task) (checks : ℕ → Status) (i : ℕ) (s : Snapshot),
        (event_generator polls checks n).get? i = some s →
        ∃ t, polls i = some t ∧ s = snapshotOf t)
    ∧ (∀ (n : ℕ) (polls : ℕ → Option Task) (checks : ℕ → Status),
        (∀ i t, polls i = some t → checks i = t.status) →
        ∀ (i : ℕ) (s : Snapshot),
          (event_generator polls checks n).get? i = some s →
          s.status.isTerminal = true →
          (event_generator polls checks n).length = i + 1) :=
  ⟨stream_progress_notFound_iff, event_generator_mem, event_generator_terminal_last⟩

theorem C9_stream_semantics_witness :
    (¬ stream_progress (applyOps [SysOp.upload "j" 0]) "j" = Except.error 404)
    ∧ (∃ t, some doneTask = some t ∧ snapshotOf doneTask = snapshotOf t)
    ∧ (event_generator (fun _ => some doneTask) (fun _ => Status.completed) 3).length = 0 + 1 := by
  refine ⟨?_, ?_, ?_⟩
  · intro h
    exact absurd ((C9_stream_semantics.1 [SysOp.upload "j" 0] "j").1 h) (by decide)
  · exact C9_stream_semantics.2.1 3 (fun _ => some doneTask) (fun _ => Status.completed) 0
      (snapshotOf doneTask) (by decide)
  · exact C9_stream_semantics.2.2 3 (fun _ => some doneTask) (fun _ => Status.completed)
      (fun i t h => by rw [← Option.some.inj h]; rfl) 0
      (snapshotOf doneTask) (by decide) (by decide)

/-- Counterexample to claim C9 as stated: the snapshot is serialized from
one read of the record, but the termination test re-reads the live
status after the yield.  If the worker completes the job between the two
(polled record still processing, live status already completed), the
stream ends after a non-terminal snapshot: the terminal snapshot is
never delivered, although the job did reach a terminal status. -/
theorem C9_terminal_snapshot_dropped :
    event_generator (fun i => some (if i = 0 then procSnapTask else doneTask))
        (fun _ => Status.completed) 5
      = [snapshotOf procSnapTask]
    ∧ (snapshotOf procSnapTask).status.isTerminal = false
    ∧ doneTask.status.isTerminal = true := by
  refine ⟨by decide, rfl, rfl⟩

/-- Claim C10 (amended): for a job already terminal when the observer
attaches, provided the recorded status does not change between the
snapshot read and the post-yield check of the first iteration (true in
particular whenever the worker of the job has already exited), the
stream yields exactly one snapshot - the terminal record, carrying its
result and error fields - and then ends. -/
theorem C10_late_observer (polls : ℕ → Option Task) (checks : ℕ → Status)
    (n : ℕ) (t : Task) (h0 : polls 0 = some t)
    (hterm : t.status.isTerminal = true) (hchk : checks 0 = t.status) :
    event_generator polls checks (n + 1) = [snapshotOf t]
    ∧ (snapshotOf t).result = t.result ∧ (snapshotOf t).error = t.error := by
  refine ⟨?_, rfl, rfl⟩
  rw [event_generator_succ_some polls checks n t h0, hchk, if_pos hterm]

theorem C10_late_observer_witness :
    event_generator (fun _ => some doneTask) (fun _ => Status.completed) 3
      = [snapshotOf doneTask]
    ∧ (snapshotOf doneTask).result = doneTask.result
    ∧ (snapshotOf doneTask).error = doneTask.error :=
  C10_late_observer (fun _ => some doneTask) (fun _ => Status.completed) 2 doneTask
    rfl (by decide) rfl

/-- Counterexample to claim C10 as stated: a job cancelled while still
queued is terminal at the moment the observer attaches, but its worker
then starts and overwrites the status with processing (claim C1's
failing scenario); the post-yield check therefore reads a non-terminal
live status and the stream keeps going, delivering more than one
snapshot. -/
theorem C10_terminal_job_extra_snapshots :
    (fun i : ℕ => some (if i = 0 then queuedCancelledTask else procSnapTask)) 0
      = some queuedCancelledTask
    ∧ queuedCancelledTask.status.isTerminal = true
    ∧ 2 ≤ (event_generator
        (fun i => some (if i = 0 then queuedCancelledTask else procSnapTask))
        (fun _ => Status.processing) 3).length := by
  refine ⟨rfl, rfl, by decide⟩

end Transcriber
